import Mathlib

/-!
Shallow embedding of the tiered-cache / resilience / batch-orchestration core of
the poe2-trading-mcp repository, together with proofs settling the frozen claims
about it.  Each definition is translated from one source function (named in its
doc comment); machine integers are modelled as Nat (times in milliseconds),
JavaScript floats that only ever hold exact values are modelled exactly, and
external collaborators (JSON codec, gzip, SHA-256) are abstract parameters.
-/

/-! ## Key generation (src/utils/key_generation.ts) -/

/-- Parameter values as they appear in a JS `Record<string, any>` used for cache
keys.  `vNull` covers both `null` and `undefined`; `vObj` stands for a nested
object or array, represented by its (deterministic) JSON serialization, which is
all `sortAndNormalizeParams` ever extracts from it. -/
inductive PValue where
  | vNull
  | vStr (s : String)
  | vNum (n : Int)
  | vBool (b : Bool)
  | vObj (json : String)
deriving DecidableEq

/-- Value normalization inside `KeyGenerator.sortAndNormalizeParams`:
null/undefined become the empty string, objects become their JSON text, and
everything else is `String(value)`. -/
def KeyGenerator.normalizeValue : PValue → String
  | .vNull => ""
  | .vStr s => s
  | .vNum n => toString n
  | .vBool b => if b then "true" else "false"
  | .vObj j => j

/-- Lexicographic comparison of char lists, the order used by the JS default
`Array.prototype.sort()` on the (string) parameter keys. -/
def lexLe : List Char → List Char → Bool
  | [], _ => true
  | _ :: _, [] => false
  | a :: as, b :: bs => if a < b then true else if b < a then false else lexLe as bs

/-- String comparison used when sorting parameter keys. -/
def strLe (a b : String) : Bool := lexLe a.toList b.toList

/-- Insertion step of the (stable, comparison-based) key sort; any
comparison-based sort models `Object.keys(params).sort()` since the keys of a JS
object are distinct. -/
def insertSorted (kv : String × String) : List (String × String) → List (String × String)
  | [] => [kv]
  | b :: l => if strLe kv.1 b.1 then kv :: b :: l else b :: insertSorted kv l

/-- Sorting the normalized entries by key, modelling
`Object.keys(params).sort().forEach(...)`. -/
def sortByKey : List (String × String) → List (String × String)
  | [] => []
  | a :: l => insertSorted a (sortByKey l)

/-- `KeyGenerator.sortAndNormalizeParams`: sort the keys, normalize the values.
A JS object is modelled as its (insertion-ordered) list of key/value entries,
with distinct keys. -/
def KeyGenerator.sortAndNormalizeParams (params : List (String × PValue)) :
    List (String × String) :=
  sortByKey (params.map (fun kv => (kv.1, KeyGenerator.normalizeValue kv.2)))

/-- `KeyGenerator.serializeParams`: `k=v` pairs joined with `&`, empty string
for an empty record. -/
def KeyGenerator.serializeParams (params : List (String × String)) : String :=
  if params.isEmpty then ""
  else String.intercalate "&" (params.map (fun kv => kv.1 ++ "=" ++ kv.2))

/-- `KeyGenerator.generateKey`.  `hashFn` abstracts the truncated SHA-256 of
`hashString` (an external primitive); keys longer than 200 characters are
replaced by `v1:type:hash`. -/
def KeyGenerator.generateKey (hashFn : String → String) (dataType : String)
    (params : List (String × PValue)) : String :=
  let paramString := KeyGenerator.serializeParams (KeyGenerator.sortAndNormalizeParams params)
  let baseKey := String.intercalate ":" ["v1", dataType, paramString]
  if 200 < baseKey.length then String.intercalate ":" ["v1", dataType, hashFn baseKey]
  else baseKey

/-! ## Compression (src/utils/compression.ts) -/

/-- Abstract JSON codec standing for the runtime `JSON.stringify` /
`JSON.parse` pair (`parse` can throw, hence `Except`). -/
structure JsonCodec (V : Type) where
  stringify : V → String
  parse : String → Except String V

/-- Abstract gzip codec standing for zlib `gzip`/`gunzip`; either side may fail
(`none`), which `compress` catches and `decompress` turns into an error. -/
structure GzipCodec where
  gz : String → Option (List Nat)
  gunzip : List Nat → Option String

/-- Stored representation of a cache payload: either the JSON string
(uncompressed) or a gzip buffer. -/
inductive StoredData where
  | rawStr (s : String)
  | gzBuf (b : List Nat)
deriving DecidableEq

/-- Return shape of `CompressionUtil.compress`. -/
structure CompressResult where
  data : StoredData
  compressed : Bool
deriving DecidableEq

/-- `CompressionUtil.compress`: payloads whose UTF-8 byte size is below the
threshold are returned as-is; otherwise gzip is attempted, kept only when it
shrinks the payload by at least 10% (`ratio < 0.9`, i.e. `10*len < 9*size`), and
any gzip exception falls back to the uncompressed string. -/
def CompressionUtil.compress {V : Type} (threshold : Nat) (J : JsonCodec V) (G : GzipCodec)
    (v : V) : CompressResult :=
  let jsonString := J.stringify v
  let dataSize := jsonString.utf8ByteSize
  if dataSize < threshold then ⟨.rawStr jsonString, false⟩
  else
    match G.gz jsonString with
    | none => ⟨.rawStr jsonString, false⟩
    | some compressed =>
      if 10 * compressed.length < 9 * dataSize then ⟨.gzBuf compressed, true⟩
      else ⟨.rawStr jsonString, false⟩

/-- `CompressionUtil.decompress`: parse directly when not compressed, else
gunzip then parse; every failure inside the try block is rethrown as
`Failed to decompress cache data`. -/
def CompressionUtil.decompress {V : Type} (J : JsonCodec V) (G : GzipCodec)
    (d : StoredData) (isCompressed : Bool) : Except String V :=
  let r : Except String V :=
    if isCompressed = false then
      match d with
      | .rawStr s => J.parse s
      | .gzBuf _ => .error "type confusion"
    else
      match d with
      | .gzBuf b =>
        match G.gunzip b with
        | some s => J.parse s
        | none => .error "gunzip failed"
      | .rawStr _ => .error "type confusion"
  match r with
  | .ok v => .ok v
  | .error _ => .error "Failed to decompress cache data"

/-! ## Retry handler (src/utils/retryHandler.ts) -/

/-- Response attached to an axios-style error (absent for network-level
failures). -/
structure JsResponse where
  status : Int
deriving DecidableEq

/-- Error shape inspected by `defaultRetryCondition`. -/
structure JsErrorM where
  response : Option JsResponse
  message : String
deriving DecidableEq

/-- `RetryHandler.defaultRetryCondition`: retry network errors (no response),
5xx, 429, 408 and 409; nothing else. -/
def RetryHandler.defaultRetryCondition (error : JsErrorM) : Bool :=
  match error.response with
  | none => true
  | some r =>
    if 500 ≤ r.status ∧ r.status < 600 then true
    else if r.status = 429 then true
    else if r.status = 408 ∨ r.status = 409 then true
    else if 400 ≤ r.status ∧ r.status < 500 then false
    else false

/-- Errors escaping `RetryHandler.execute`: either the original error rethrown
because it was classified non-retryable, or the last error annotated with the
attempt count after exhaustion. -/
inductive RetryError where
  | immediate (e : JsErrorM)
  | annotated (attempts : Nat) (e : JsErrorM)
deriving DecidableEq

/-- Message enhancement applied on exhaustion in `RetryHandler.execute`. -/
def RetryHandler.enhance (attempts : Nat) (e : JsErrorM) : JsErrorM :=
  { e with message := "Request failed after " ++ toString attempts ++ " attempts: " ++ e.message }

/-- Loop body of `RetryHandler.execute`.  The operation is modelled by the
outcome of its i-th invocation (`fn i`); the returned Nat is the number of
invocations performed.  Delays (`sleep`) are irrelevant to the result and not
modelled. -/
def RetryHandler.executeAux {α : Type} (cond : JsErrorM → Bool) (retries : Nat)
    (fn : Nat → Except JsErrorM α) (attempt : Nat) : Except RetryError α × Nat :=
  match fn attempt with
  | .ok v => (.ok v, attempt + 1)
  | .error e =>
    if retries < attempt + 1 then
      (.error (.annotated (retries + 1) (RetryHandler.enhance (retries + 1) e)), attempt + 1)
    else if cond e = false then (.error (.immediate e), attempt + 1)
    else RetryHandler.executeAux cond retries fn (attempt + 1)
termination_by retries + 1 - attempt
decreasing_by omega

/-- `RetryHandler.execute` with `retries` configured retries. -/
def RetryHandler.execute {α : Type} (cond : JsErrorM → Bool) (retries : Nat)
    (fn : Nat → Except JsErrorM α) : Except RetryError α × Nat :=
  RetryHandler.executeAux cond retries fn 0

/-! ## Batch manager (src/utils/batch-manager.ts) -/

/-- Substring test, modelling JS `String.prototype.includes`. -/
def strContains (hay needle : String) : Bool :=
  hay.toList.tails.any (fun t => needle.toList.isPrefixOf t)

/-- `BatchManager.shouldRetry`: never retry timeouts or aborts, retry errors
whose message mentions `network` or `ECONNRESET`. -/
def BatchManager.shouldRetry (msg : String) : Bool :=
  if msg = "Request timeout" || msg = "Request aborted" then false
  else strContains msg "network" || strContains msg "ECONNRESET"

/-- Outcome of one attempt of the executor for a batch item (the combined
result of `executeWithTimeout`): a value, or a rejection message. -/
inductive AttemptOutcome (R : Type) where
  | ok (r : R)
  | err (msg : String)

/-- Batch request (`BatchRequest<T>`); priority/timeout fields are irrelevant to
the modelled claims and omitted. -/
structure BatchRequestM (T : Type) where
  id : String
  data : T

/-- Per-item batch result (`BatchResult<T, R>`), duration/timestamp omitted. -/
structure BatchResultM (T R : Type) where
  id : String
  request : T
  result : Option R
  error : Option String

/-- `BatchManager.executeRequest`, with explicit fuel standing for the number of
recursion steps the runtime would have to take: the source recurses into itself
(`return this.executeRequest(request, executor)`) whenever `shouldRetry` holds,
with no bound (the configured `retryLimit` is never consulted), so `none` means
the recursion has not reached a base case within `fuel` steps. -/
def BatchManager.executeRequestFuel {T R : Type} (req : BatchRequestM T)
    (outcomes : Nat → AttemptOutcome R) : Nat → Nat → Option (BatchResultM T R)
  | _attempt, 0 => none
  | attempt, fuel + 1 =>
    match outcomes attempt with
    | .ok r => some ⟨req.id, req.data, some r, none⟩
    | .err msg =>
      if BatchManager.shouldRetry msg then
        BatchManager.executeRequestFuel req outcomes (attempt + 1) fuel
      else some ⟨req.id, req.data, none, some msg⟩

/-! ## Circuit breaker (src/utils/circuitBreaker.ts) -/

/-- Circuit state; `opened` renders the source's `open` (a Lean keyword). -/
inductive CircuitState where
  | closed
  | opened
  | halfOpen
deriving DecidableEq

/-- `CircuitBreakerConfig`; times in ms.  `monitoringPeriod = 0` models a falsy
monitoring period (the JS code guards the decay with
`if (this.config.monitoringPeriod && ...)`). -/
structure CircuitBreakerConfig where
  failureThreshold : Nat
  timeout : Nat
  resetTimeout : Nat
  monitoringPeriod : Nat
deriving DecidableEq

/-- Mutable fields of `CircuitBreaker`. -/
structure CBState where
  state : CircuitState
  failureCount : Nat
  successCount : Nat
  totalRequests : Nat
  lastFailureTime : Option Nat
  lastSuccessTime : Option Nat
  nextAttemptTime : Option Nat
deriving DecidableEq

/-- Initial state of a freshly constructed breaker. -/
def CircuitBreaker.initState : CBState :=
  ⟨.closed, 0, 0, 0, none, none, none⟩

/-- `CircuitBreaker.checkStateTransition`: move open → half-open once
`nextAttemptTime` (truthy, i.e. non-null and nonzero) has passed, then decay the
failure count by one when the (truthy) last failure is older than the
monitoring period.  `Math.max(0, c - 1)` is Nat subtraction. -/
def CircuitBreaker.checkStateTransition (cfg : CircuitBreakerConfig) (s : CBState)
    (now : Nat) : CBState :=
  let s1 :=
    match s.state, s.nextAttemptTime with
    | .opened, some t => if t ≠ 0 ∧ t ≤ now then { s with state := .halfOpen, nextAttemptTime := none } else s
    | _, _ => s
  match s1.lastFailureTime with
  | some lf =>
    if cfg.monitoringPeriod ≠ 0 ∧ lf ≠ 0 ∧ lf < now - cfg.monitoringPeriod then
      { s1 with failureCount := s1.failureCount - 1 }
    else s1
  | none => s1

/-- `CircuitBreaker.onSuccess`. -/
def CircuitBreaker.onSuccess (s : CBState) (now : Nat) : CBState :=
  let s := { s with successCount := s.successCount + 1, lastSuccessTime := some now }
  if s.state = .halfOpen then
    { s with state := .closed, failureCount := 0, nextAttemptTime := none }
  else s

/-- `CircuitBreaker.openCircuit`. -/
def CircuitBreaker.openCircuit (cfg : CircuitBreakerConfig) (s : CBState) (now : Nat) : CBState :=
  { s with state := .opened, nextAttemptTime := some (now + cfg.resetTimeout) }

/-- `CircuitBreaker.onFailure`. -/
def CircuitBreaker.onFailure (cfg : CircuitBreakerConfig) (s : CBState) (now : Nat) : CBState :=
  let s := { s with failureCount := s.failureCount + 1, lastFailureTime := some now }
  if cfg.failureThreshold ≤ s.failureCount then CircuitBreaker.openCircuit cfg s now else s

/-- Observable outcome of one `CircuitBreaker.execute` call. -/
inductive ExecOutcome (α : Type) where
  | result (v : α)
  | opError
  | circuitOpenError
deriving DecidableEq

/-- `CircuitBreaker.execute` at time `now`.  `opResult` is what the wrapped
operation (raced against the per-call timeout) would produce if invoked:
`some v` for success, `none` for error or timeout (both reach `onFailure`).
When the breaker is open the operation is not invoked and the outcome does not
depend on `opResult` (proved below). -/
def CircuitBreaker.execute {α : Type} (cfg : CircuitBreakerConfig) (s : CBState) (now : Nat)
    (opResult : Option α) : CBState × ExecOutcome α :=
  let s := { s with totalRequests := s.totalRequests + 1 }
  let s := CircuitBreaker.checkStateTransition cfg s now
  if s.state = .opened then (s, .circuitOpenError)
  else
    match opResult with
    | some v => (CircuitBreaker.onSuccess s now, .result v)
    | none => (CircuitBreaker.onFailure cfg s now, .opError)

/-- Fold of `CircuitBreaker.execute` over a call sequence: call i happens at
time `times i` with operation outcome `results i`. -/
def CircuitBreaker.iterExecute {α : Type} (cfg : CircuitBreakerConfig) (times : Nat → Nat)
    (results : Nat → Option α) : Nat → CBState
  | 0 => CircuitBreaker.initState
  | n + 1 =>
    (CircuitBreaker.execute cfg (CircuitBreaker.iterExecute cfg times results n)
      (times n) (results n)).1

/-- State invariant of the breaker: away from `closed` the failure count has
reached the threshold.  Preserved by `execute` when the monitoring-period decay
is disabled. -/
def CBInv (cfg : CircuitBreakerConfig) (s : CBState) : Prop :=
  s.state ≠ .closed → cfg.failureThreshold ≤ s.failureCount

/-- Concrete call trace exhibiting the monitoring-period decay: threshold 2,
reset timeout 1000000 ms, monitoring period 10 ms; two failures at t=1,2 open
the circuit, two rejected calls at t=50,60 decay the failure count to 0, and the
half-open call at t=1000002 fails yet leaves the breaker half-open. -/
def cbDecayTrace : CBState :=
  CircuitBreaker.iterExecute (α := Unit) ⟨2, 10000, 1000000, 10⟩
    (fun n => [1, 2, 50, 60, 1000002].getD n 0) (fun _ => none) 5

/-! ## Rate limiter (src/utils/rateLimiter.ts) -/

/-- Token-bucket state (`RateLimitState` minus the queue, which is modelled by
the per-event pending count below). -/
structure RLState where
  tokens : Nat
  lastRefill : Nat
deriving DecidableEq

/-- `RateLimiter.refillTokens`: `tokensToAdd = floor(elapsedSeconds * rate)`;
times in ms and `rate` in requests/second, so the floor is Nat division by
1000.  `lastRefill` advances only when at least one token is added. -/
def RateLimiter.refillTokens (rate burst : Nat) (s : RLState) (now : Nat) : RLState :=
  let tokensToAdd := (now - s.lastRefill) * rate / 1000
  if 0 < tokensToAdd then
    { tokens := min burst (s.tokens + tokensToAdd), lastRefill := now }
  else s

/-- One run of `RateLimiter.processQueue` at time `now` with `pending` queued
acquirers: refill, then grant one token each to as many acquirers as tokens
allow.  Returns the new state and the number of grants. -/
def RateLimiter.processStep (rate burst : Nat) (s : RLState) (now pending : Nat) :
    RLState × Nat :=
  let s1 := RateLimiter.refillTokens rate burst s now
  let granted := min s1.tokens pending
  (⟨s1.tokens - granted, s1.lastRefill⟩, granted)

/-- Number of grants issued at times inside the window `(wstart, wend]` when the
limiter processes the given (time, pending) events from state `s`.  The event
list over-approximates every schedule the JS event loop can produce. -/
def RateLimiter.windowGrants (rate burst wstart wend : Nat) (s : RLState) :
    List (Nat × Nat) → Nat
  | [] => 0
  | (t, n) :: rest =>
    let p := RateLimiter.processStep rate burst s t n
    (if wstart < t ∧ t ≤ wend then p.2 else 0) +
      RateLimiter.windowGrants rate burst wstart wend p.1 rest

/-- Computable check that a list of event times is nondecreasing and starts no
earlier than `t0`. -/
def monotoneFrom (t0 : Nat) : List Nat → Bool
  | [] => true
  | t :: rest => if t0 ≤ t then monotoneFrom t rest else false

/-- Induction invariant for the sliding-window bound.  `tok`/`lr` are the
limiter state, `G` the grants counted in `(wstart, wend]` so far, `tprev` the
time of the last processed event. -/
def RLInv (rate burst wstart wend tok lr G tprev : Nat) : Prop :=
  tok ≤ burst ∧ lr ≤ tprev ∧
    ((tprev ≤ wend ∧ lr ≤ wstart ∧ G + tok ≤ burst ∧
        (G = 0 ∨ ((wstart - lr) * rate < 1000 ∧ wstart < tprev))) ∨
     (tprev ≤ wend ∧ wstart < lr ∧
        1000 * (G + tok) ≤ 1000 * burst + (lr - wstart) * rate + 999) ∨
     (wend < tprev ∧ G ≤ burst + ((wend - wstart) * rate + 999) / 1000))

/-! ## Priority queue with deduplication (PriorityQueue, batch search) -/

/-- Priority tiers; the numeric enum values HIGH=0, MEDIUM=1, LOW=2 are
recovered by `Priority.toNat`. -/
inductive Priority where
  | high
  | medium
  | low
deriving DecidableEq

/-- Numeric value of the JS `Priority` enum. -/
def Priority.toNat : Priority → Nat
  | .high => 0
  | .medium => 1
  | .low => 2

/-- `QueueItem<T>`.  Ids (`crypto.randomBytes(16).toString('hex')`) are
modelled by a fresh counter; the enqueue timestamp is irrelevant to the claims
and omitted. -/
structure QItem (T : Type) where
  id : Nat
  priority : Priority
  data : T
  hash : String
  retryCount : Nat
deriving DecidableEq

/-- State of `PriorityQueue<T>`: the three FIFO sub-queues, the deduplication
map (an association list with JS-Map lookup/replace semantics), the
`duplicatesPrevented` counter and the fresh-id counter. -/
structure PQState (T : Type) where
  high : List (QItem T)
  medium : List (QItem T)
  low : List (QItem T)
  dedup : List (String × QItem T)
  duplicatesPrevented : Nat
  nextId : Nat
deriving DecidableEq

/-- `PriorityQueue.size`. -/
def PQState.size {T : Type} (s : PQState T) : Nat :=
  s.high.length + s.medium.length + s.low.length

/-- All queued items, in tier order. -/
def PQState.allItems {T : Type} (s : PQState T) : List (QItem T) :=
  s.high ++ s.medium ++ s.low

/-- Number of queued items carrying a given deduplication hash. -/
def PQState.hashCount {T : Type} (s : PQState T) (h : String) : Nat :=
  s.allItems.countP (fun it => it.hash == h)

/-- JS `Map.set` on the deduplication map. -/
def dedupSet {T : Type} (m : List (String × QItem T)) (h : String) (it : QItem T) :
    List (String × QItem T) :=
  (h, it) :: m.filter (fun kv => kv.1 != h)

/-- Find-and-splice of `updatePriority`: remove the first item with the given
id from a queue. -/
def extractById {T : Type} (idv : Nat) : List (QItem T) → Option (QItem T × List (QItem T))
  | [] => none
  | x :: xs =>
    if x.id = idv then some (x, xs)
    else
      match extractById idv xs with
      | some (it, rest) => some (it, x :: rest)
      | none => none

/-- Append an item to the sub-queue of its priority (`queue.push(item)`). -/
def pushItem {T : Type} (s : PQState T) (it : QItem T) : PQState T :=
  match it.priority with
  | .high => { s with high := s.high ++ [it] }
  | .medium => { s with medium := s.medium ++ [it] }
  | .low => { s with low := s.low ++ [it] }

/-- JS object aliasing: the deduplication map holds references to the queue
items, so mutating an item's priority is visible through the map. -/
def aliasPriority {T : Type} (s : PQState T) (idv : Nat) (p : Priority) : PQState T :=
  { s with dedup := s.dedup.map (fun kv => if kv.2.id = idv then (kv.1, { kv.2 with priority := p }) else kv) }

/-- `PriorityQueue.updatePriority`: search high, then medium, then low for the
id; splice the item out, mutate its priority, push it onto its new queue. -/
def PriorityQueue.updatePriority {T : Type} (s : PQState T) (idv : Nat) (newPriority : Priority) :
    Bool × PQState T :=
  match extractById idv s.high with
  | some (it, rest) =>
    (true, aliasPriority (pushItem { s with high := rest } { it with priority := newPriority }) idv newPriority)
  | none =>
    match extractById idv s.medium with
    | some (it, rest) =>
      (true, aliasPriority (pushItem { s with medium := rest } { it with priority := newPriority }) idv newPriority)
    | none =>
      match extractById idv s.low with
      | some (it, rest) =>
        (true, aliasPriority (pushItem { s with low := rest } { it with priority := newPriority }) idv newPriority)
      | none => (false, s)

/-- `PriorityQueue.enqueue`.  `hashFn` abstracts `generateHash` (SHA-256 of the
JSON of the normalized payload, collision-free); timers (deduplication-window
expiry, cleanup) do not fire between the modelled calls, which is exactly the
"within the deduplication window" situation of the spec. -/
def PriorityQueue.enqueue {T : Type} (hashFn : T → String) (maxSize : Nat) (s : PQState T)
    (d : T) (priority : Priority) : Option Nat × PQState T :=
  let h := hashFn d
  match s.dedup.lookup h with
  | some existing =>
    let s1 := { s with duplicatesPrevented := s.duplicatesPrevented + 1 }
    let s2 :=
      if priority.toNat < existing.priority.toNat then
        (PriorityQueue.updatePriority s1 existing.id priority).2
      else s1
    (some existing.id, s2)
  | none =>
    if maxSize ≤ s.size then (none, s)
    else
      let item : QItem T := ⟨s.nextId, priority, d, h, 0⟩
      let s1 := pushItem s item
      (some item.id, { s1 with dedup := dedupSet s1.dedup h item, nextId := s.nextId + 1 })

/-! ## Cache manager (src/cache/cache_manager.ts, invalidation, L1/L2 tiers) -/

/-- Per-category TTL policy (`CachePolicy`), ms.  Only the fields the modelled
claims read are kept. -/
structure CachePolicy where
  l1TTL : Nat
  l2TTL : Nat
deriving DecidableEq

/-- `CacheInvalidation.getTTL`: `policy?.l1TTL || defaultTTL` (JS `||` treats a
zero TTL as falsy). -/
def CacheInvalidation.getTTL (policies : List (String × CachePolicy)) (defaultTTL : Nat)
    (dataType : String) : Nat :=
  match policies.lookup dataType with
  | some policy => if policy.l1TTL = 0 then defaultTTL else policy.l1TTL
  | none => defaultTTL

/-- `CacheInvalidation.getL2TTL`: `policy?.l2TTL || getTTL(dataType) * 5`. -/
def CacheInvalidation.getL2TTL (policies : List (String × CachePolicy)) (defaultTTL : Nat)
    (dataType : String) : Nat :=
  match policies.lookup dataType with
  | some policy =>
    if policy.l2TTL = 0 then CacheInvalidation.getTTL policies defaultTTL dataType * 5
    else policy.l2TTL
  | none => CacheInvalidation.getTTL policies defaultTTL dataType * 5

/-- Abstract cache tier (L1 node-cache or L2 sqlite store): stored entries
(key, value, TTL in ms — the source hands node-cache `ttlMs / 1000` seconds,
the same duration) plus an environment-controlled flag saying whether a write
to the underlying store succeeds (node-cache can reject at capacity, sqlite can
throw; both surface as a `false`/caught-error result in the source). -/
structure Tier (V : Type) where
  entries : List (String × V × Nat)
  writeOk : Bool
deriving DecidableEq

/-- Tier lookup (`l1Cache.get` / `l2Cache.get`); TTL expiry is time-driven and
outside the modelled claims. -/
def Tier.get {V : Type} (t : Tier V) (key : String) : Option V :=
  (t.entries.find? (fun e => e.1 == key)).map (fun e => e.2.1)

/-- Tier write (`l1Cache.set` / `l2Cache.set`): on success the entry replaces
any previous entry for the key, on failure the tier is untouched and `false` is
returned. -/
def Tier.set {V : Type} (t : Tier V) (key : String) (v : V) (ttl : Nat) : Bool × Tier V :=
  if t.writeOk then
    (true, { t with entries := (key, v, ttl) :: t.entries.filter (fun e => e.1 != key) })
  else (false, t)

/-- The metrics fields of `CacheManager` touched by `get`. -/
structure CacheMetrics where
  requestCount : Nat
  errorRate : Nat
deriving DecidableEq

/-- Which tier served a `get` (the `source` field of `CacheResult`). -/
inductive CacheSource where
  | l1
  | l2
deriving DecidableEq

/-- `CacheResult<T>` (timestamp omitted). -/
structure CacheResultM (V : Type) where
  value : V
  source : CacheSource
  cached : Bool
deriving DecidableEq

/-- `CacheManager.get`: try L1, then L2 (repopulating L1 with the category's L1
TTL on an L2 hit), and on a total miss throw
`Cache miss - data needs to be fetched from source`, which the catch block
counts in `errorRate` before rethrowing.  The orchestrator has no fetch
parameter at all: it never calls the upstream.  Returns (thrown-or-returned
result, new L1 tier, new metrics). -/
def CacheManager.get {V : Type} (hashFn : String → String)
    (policies : List (String × CachePolicy)) (defaultTTL : Nat)
    (l1Cache l2Cache : Option (Tier V)) (dataType : String)
    (params : List (String × PValue)) (m : CacheMetrics) :
    Except String (CacheResultM V) × Option (Tier V) × CacheMetrics :=
  let key := KeyGenerator.generateKey hashFn dataType params
  let m1 := { m with requestCount := m.requestCount + 1 }
  match l1Cache.bind (fun t => t.get key) with
  | some v => (.ok ⟨v, .l1, true⟩, l1Cache, m1)
  | none =>
    match l2Cache.bind (fun t => t.get key) with
    | some v =>
      let l1TTL := CacheInvalidation.getTTL policies defaultTTL dataType
      (.ok ⟨v, .l2, true⟩, l1Cache.map (fun t => (t.set key v l1TTL).2), m1)
    | none =>
      (.error "Cache miss - data needs to be fetched from source", l1Cache,
        { m1 with errorRate := m1.errorRate + 1 })

/-- `CacheManager.set`: write to each enabled tier with that tier's TTL for the
category, folding the per-tier booleans with `success = success && tierSuccess`.
Returns (overall success, new L1, new L2). -/
def CacheManager.set {V : Type} (hashFn : String → String)
    (policies : List (String × CachePolicy)) (defaultTTL : Nat)
    (l1Cache l2Cache : Option (Tier V)) (dataType : String)
    (params : List (String × PValue)) (v : V) :
    Bool × Option (Tier V) × Option (Tier V) :=
  let key := KeyGenerator.generateKey hashFn dataType params
  let r1 : Bool × Option (Tier V) :=
    match l1Cache with
    | some t =>
      let r := t.set key v (CacheInvalidation.getTTL policies defaultTTL dataType)
      (r.1, some r.2)
    | none => (true, none)
  let r2 : Bool × Option (Tier V) :=
    match l2Cache with
    | some t =>
      let r := t.set key v (CacheInvalidation.getL2TTL policies defaultTTL dataType)
      (r.1, some r.2)
    | none => (true, none)
  (true && r1.1 && r2.1, r1.2, r2.2)

/-! ## Theorems -/

/-- C1 counterexample.  Both tiers are enabled, the L1 write succeeds
(`writeOk = true`) and the L2 write fails; the claim says `set` must then
report overall success, but the source folds the tier results with
`success = success && tierSuccess`, so `set` returns `false`. -/
theorem cacheManager_set_claim_counterexample :
    Option.all Tier.writeOk (some (⟨[], true⟩ : Tier Nat)) = true ∧
    (CacheManager.set (fun s => s) [] 300000 (some (⟨[], true⟩ : Tier Nat))
        (some ⟨[], false⟩) "leagues" [] 42).1 = false :=
  ⟨rfl, rfl⟩

/-- C1 (amended): `CacheManager.set` reports success exactly when every enabled
tier's write succeeded; a single enabled tier's failure makes the whole `set`
return `false` (a disabled tier never contributes a failure). -/
theorem cacheManager_set_success_iff {V : Type} (hashFn : String → String)
    (policies : List (String × CachePolicy)) (defaultTTL : Nat)
    (l1Cache l2Cache : Option (Tier V)) (dataType : String)
    (params : List (String × PValue)) (v : V) :
    (CacheManager.set hashFn policies defaultTTL l1Cache l2Cache dataType params v).1 =
      (Option.all Tier.writeOk l1Cache && Option.all Tier.writeOk l2Cache) := by
  cases l1Cache with
  | none =>
    cases l2Cache with
    | none => rfl
    | some t2 => cases t2 with | mk e2 w2 => cases w2 <;> rfl
  | some t1 =>
    cases t1 with
    | mk e1 w1 =>
      cases l2Cache with
      | none => cases w1 <;> rfl
      | some t2 => cases t2 with | mk e2 w2 => cases w1 <;> cases w2 <;> rfl

/-- C6 counterexample.  With L1 enabled but empty and L2 disabled, the total
miss comes back from `get` as a thrown `Error` (and is counted in the
`errorRate` metric, which goes from 0 to 1): the cache-miss signal is an error
in this code, contradicting the claim's "this cache-miss signal is not an
error". -/
theorem cacheManager_get_miss_counterexample :
    CacheManager.get (V := Nat) (fun s => s) [] 300000 (some ⟨[], true⟩) none
        "leagues" [] ⟨0, 0⟩ =
      (.error "Cache miss - data needs to be fetched from source", some ⟨[], true⟩, ⟨1, 1⟩) :=
  rfl

/-- C6 (amended): `get` checks L1 first and returns the value with source `l1`
on an L1 hit; on an L1 miss it checks L2 and, if found there, repopulates L1
with the category's L1 TTL and returns the value with source `l2`; when both
tiers miss, `get` signals "needs fetch" by throwing the cache-miss error
(message `Cache miss - data needs to be fetched from source`), counted in the
error metric.  It never calls the upstream: the definition takes no fetch
function at all. -/
theorem cacheManager_get_spec {V : Type} (hashFn : String → String)
    (policies : List (String × CachePolicy)) (defaultTTL : Nat)
    (l1Cache l2Cache : Option (Tier V)) (dataType : String)
    (params : List (String × PValue)) (m : CacheMetrics) :
    (∀ v, l1Cache.bind (fun t => t.get (KeyGenerator.generateKey hashFn dataType params)) = some v →
        CacheManager.get hashFn policies defaultTTL l1Cache l2Cache dataType params m =
          (.ok ⟨v, .l1, true⟩, l1Cache, ⟨m.requestCount + 1, m.errorRate⟩))
  ∧ (∀ v, l1Cache.bind (fun t => t.get (KeyGenerator.generateKey hashFn dataType params)) = none →
        l2Cache.bind (fun t => t.get (KeyGenerator.generateKey hashFn dataType params)) = some v →
        CacheManager.get hashFn policies defaultTTL l1Cache l2Cache dataType params m =
          (.ok ⟨v, .l2, true⟩,
            l1Cache.map (fun t =>
              (t.set (KeyGenerator.generateKey hashFn dataType params) v
                (CacheInvalidation.getTTL policies defaultTTL dataType)).2),
            ⟨m.requestCount + 1, m.errorRate⟩))
  ∧ (l1Cache.bind (fun t => t.get (KeyGenerator.generateKey hashFn dataType params)) = none →
        l2Cache.bind (fun t => t.get (KeyGenerator.generateKey hashFn dataType params)) = none →
        CacheManager.get hashFn policies defaultTTL l1Cache l2Cache dataType params m =
          (.error "Cache miss - data needs to be fetched from source", l1Cache,
            ⟨m.requestCount + 1, m.errorRate + 1⟩)) := by
  refine ⟨fun v h1 => ?_, fun v h1 h2 => ?_, fun h1 h2 => ?_⟩
  · simp only [CacheManager.get]
    rw [h1]
  · simp only [CacheManager.get]
    rw [h1, h2]
  · simp only [CacheManager.get]
    rw [h1, h2]

/-- C6 witness: concrete L2 hit repopulating an empty L1. -/
theorem cacheManager_get_spec_witness :
    CacheManager.get (V := Nat) (fun s => s) [] 300000 (some ⟨[], true⟩)
        (some ⟨[("v1:leagues:", 7, 0)], true⟩) "leagues" [] ⟨0, 0⟩ =
      (.ok ⟨7, .l2, true⟩,
        (some (⟨[], true⟩ : Tier Nat)).map (fun t =>
          (t.set (KeyGenerator.generateKey (fun s => s) "leagues" []) 7
            (CacheInvalidation.getTTL [] 300000 "leagues")).2),
        ⟨1, 0⟩) :=
  (cacheManager_get_spec (fun s => s) [] 300000 (some ⟨[], true⟩)
      (some ⟨[("v1:leagues:", 7, 0)], true⟩) "leagues" [] ⟨0, 0⟩).2.1 7
    (by decide) (by decide)

/-- C10: in `PriorityQueue.enqueue` the duplicate check precedes the capacity
check: a payload whose hash is in the deduplication map returns the existing
item's id regardless of the queue size; `enqueue` returns null exactly for a
non-duplicate payload on a full queue, and then the state is unchanged. -/
theorem priorityQueue_enqueue_full_behavior {T : Type} (hashFn : T → String) (maxSize : Nat)
    (s : PQState T) (d : T) (priority : Priority) :
    (∀ existing, s.dedup.lookup (hashFn d) = some existing →
        (PriorityQueue.enqueue hashFn maxSize s d priority).1 = some existing.id)
  ∧ ((PriorityQueue.enqueue hashFn maxSize s d priority).1 = none ↔
        s.dedup.lookup (hashFn d) = none ∧ maxSize ≤ s.size)
  ∧ (s.dedup.lookup (hashFn d) = none → maxSize ≤ s.size →
        (PriorityQueue.enqueue hashFn maxSize s d priority).2 = s) := by
  refine ⟨fun existing he => ?_, ?_, fun h1 h2 => ?_⟩
  · simp [PriorityQueue.enqueue, he]
  · constructor
    · intro hn
      cases hl : s.dedup.lookup (hashFn d) with
      | some e => simp [PriorityQueue.enqueue, hl] at hn
      | none =>
        refine ⟨rfl, ?_⟩
        by_cases hsz : maxSize ≤ s.size
        · exact hsz
        · simp [PriorityQueue.enqueue, hl, hsz] at hn
    · rintro ⟨hl, hsz⟩
      simp [PriorityQueue.enqueue, hl, hsz]
  · simp [PriorityQueue.enqueue, h1, h2]

/-- C10 witness: a one-slot queue holding item 7 with hash `h5`; re-enqueueing
payload 5 returns id 7 despite the queue being full, while the fresh payload 6
is rejected with the state untouched. -/
theorem priorityQueue_enqueue_full_behavior_witness :
    (PriorityQueue.enqueue (fun n => "h" ++ toString n) 1
        ⟨[⟨7, .medium, 5, "h5", 0⟩], [], [], [("h5", ⟨7, .medium, 5, "h5", 0⟩)], 0, 8⟩
        5 .high).1 = some 7
  ∧ (PriorityQueue.enqueue (fun n => "h" ++ toString n) 1
        ⟨[⟨7, .medium, 5, "h5", 0⟩], [], [], [("h5", ⟨7, .medium, 5, "h5", 0⟩)], 0, 8⟩
        6 .high).1 = none
  ∧ (PriorityQueue.enqueue (fun n => "h" ++ toString n) 1
        ⟨[⟨7, .medium, 5, "h5", 0⟩], [], [], [("h5", ⟨7, .medium, 5, "h5", 0⟩)], 0, 8⟩
        6 .high).2 =
      ⟨[⟨7, .medium, 5, "h5", 0⟩], [], [], [("h5", ⟨7, .medium, 5, "h5", 0⟩)], 0, 8⟩ :=
  ⟨(priorityQueue_enqueue_full_behavior _ 1 _ 5 .high).1 ⟨7, .medium, 5, "h5", 0⟩ (by decide),
   (priorityQueue_enqueue_full_behavior _ 1 _ 6 .high).2.1.mpr ⟨by decide, by decide⟩,
   (priorityQueue_enqueue_full_behavior _ 1 _ 6 .high).2.2 (by decide) (by decide)⟩

/-- C8: given that the external JSON codec and gzip codec invert each other
(the documented behavior of `JSON.parse`/`JSON.stringify` and
`gunzip`/`gzip`), decompressing the output of `compress` with the `compressed`
flag `compress` returned yields the original value, and a value whose
serialized size is under the compression threshold always comes back with
`compressed = false`. -/
theorem compress_decompress_roundtrip {V : Type} (threshold : Nat) (J : JsonCodec V)
    (G : GzipCodec) (hJ : ∀ v, J.parse (J.stringify v) = .ok v)
    (hG : ∀ s b, G.gz s = some b → G.gunzip b = some s) (v : V) :
    CompressionUtil.decompress J G (CompressionUtil.compress threshold J G v).data
        (CompressionUtil.compress threshold J G v).compressed = .ok v
  ∧ ((J.stringify v).utf8ByteSize < threshold →
      (CompressionUtil.compress threshold J G v).compressed = false) := by
  constructor
  · unfold CompressionUtil.compress CompressionUtil.decompress
    by_cases hsz : (J.stringify v).utf8ByteSize < threshold
    · simp [hsz, hJ]
    · simp only [hsz, if_false]
      cases hgz : G.gz (J.stringify v) with
      | none => simp [hJ]
      | some b =>
        by_cases hratio : 10 * b.length < 9 * (J.stringify v).utf8ByteSize
        · simp [hratio, hG _ _ hgz, hJ]
        · simp [hratio, hJ]
  · intro hsz
    unfold CompressionUtil.compress
    simp [hsz]

/-- C8 witness: Bool payloads with a literal codec and a gzip that always
fails (exercising the caught-exception fallback). -/
theorem compress_decompress_roundtrip_witness :
    CompressionUtil.decompress
        ⟨fun b => if b then "true" else "false",
         fun s => if s = "true" then .ok true else if s = "false" then .ok false else .error "parse"⟩
        ⟨fun _ => none, fun _ => none⟩
        (CompressionUtil.compress 10
          ⟨fun b => if b then "true" else "false",
           fun s => if s = "true" then .ok true else if s = "false" then .ok false else .error "parse"⟩
          ⟨fun _ => none, fun _ => none⟩ true).data
        (CompressionUtil.compress 10
          ⟨fun b => if b then "true" else "false",
           fun s => if s = "true" then .ok true else if s = "false" then .ok false else .error "parse"⟩
          ⟨fun _ => none, fun _ => none⟩ true).compressed = .ok true :=
  (compress_decompress_roundtrip 10 _ _ (fun v => by cases v <;> rfl)
    (fun _ _ h => Option.noConfusion h) true).1

/-- C3 (code bug): `BatchManager.executeRequest` retries network-classified
errors by unbounded self-recursion — the configured `retryLimit` is accepted
and defaulted but never consulted — so with an executor whose every attempt
rejects with `network error` the recursion never reaches a base case (no
amount of fuel completes it), and `executeBatch` on such an item never
resolves, contradicting the claim that it always completes with N results. -/
theorem executeRequest_network_retry_diverges :
    BatchManager.shouldRetry "network error" = true ∧
    ∀ (fuel attempt : Nat),
      BatchManager.executeRequestFuel (R := Nat) ⟨"item-1", (0 : Nat)⟩
        (fun _ => .err "network error") attempt fuel = none := by
  refine ⟨by decide, fun fuel => ?_⟩
  induction fuel with
  | zero => intro attempt; rfl
  | succ n ih =>
    intro attempt
    have hsr : BatchManager.shouldRetry "network error" = true := by decide
    simp [BatchManager.executeRequestFuel, hsr, ih (attempt + 1)]

/-- Pushing an item touches only the sub-queue of its priority, never the
deduplication map. -/
theorem pushItem_dedup {T : Type} (s : PQState T) (it : QItem T) :
    (pushItem s it).dedup = s.dedup := by
  cases hp : it.priority <;> simp [pushItem, hp]

/-- Pushing an item grows the total queue size by one. -/
theorem pushItem_size {T : Type} (s : PQState T) (it : QItem T) :
    (pushItem s it).size = s.size + 1 := by
  cases hp : it.priority <;> simp [pushItem, hp, PQState.size] <;> omega

/-- Pushing an item adds its hash once to the per-hash count. -/
theorem pushItem_hashCount {T : Type} (s : PQState T) (it : QItem T) (h : String) :
    (pushItem s it).hashCount h = s.hashCount h + (if it.hash == h then 1 else 0) := by
  cases hp : it.priority <;>
    simp [pushItem, hp, PQState.hashCount, PQState.allItems, List.countP_append,
      List.countP_cons] <;> omega

/-- Splicing an item out shrinks the list length by one. -/
theorem extractById_length {T : Type} (idv : Nat) :
    ∀ (l rest : List (QItem T)) (it : QItem T),
      extractById idv l = some (it, rest) → l.length = rest.length + 1 := by
  intro l
  induction l with
  | nil => intro rest it h; exact absurd h (by simp [extractById])
  | cons x xs ih =>
    intro rest it h
    rw [extractById] at h
    by_cases hx : x.id = idv
    · rw [if_pos hx] at h
      cases h
      simp
    · rw [if_neg hx] at h
      cases hr : extractById idv xs with
      | none => rw [hr] at h; simp at h
      | some pr =>
        obtain ⟨it2, rest2⟩ := pr
        rw [hr] at h
        simp only [Option.some.injEq, Prod.mk.injEq] at h
        obtain ⟨h1, h2⟩ := h
        rw [← h2]
        have := ih rest2 it2 hr
        simp [this]

/-- Splicing an item out removes exactly its contribution to a count. -/
theorem extractById_countP {T : Type} (idv : Nat) (p : QItem T → Bool) :
    ∀ (l rest : List (QItem T)) (it : QItem T),
      extractById idv l = some (it, rest) →
      l.countP p = rest.countP p + (if p it then 1 else 0) := by
  intro l
  induction l with
  | nil => intro rest it h; exact absurd h (by simp [extractById])
  | cons x xs ih =>
    intro rest it h
    rw [extractById] at h
    by_cases hx : x.id = idv
    · rw [if_pos hx] at h
      cases h
      simp [List.countP_cons]
    · rw [if_neg hx] at h
      cases hr : extractById idv xs with
      | none => rw [hr] at h; simp at h
      | some pr =>
        obtain ⟨it2, rest2⟩ := pr
        rw [hr] at h
        simp only [Option.some.injEq, Prod.mk.injEq] at h
        obtain ⟨h1, h2⟩ := h
        rw [← h2, ← h1]
        have := ih rest2 it2 hr
        simp [List.countP_cons, this]
        omega

/-- Re-writing priorities through the aliased deduplication map does not touch
the queues. -/
theorem aliasPriority_size {T : Type} (s : PQState T) (idv : Nat) (p : Priority) :
    (aliasPriority s idv p).size = s.size := rfl

/-- Alias updates leave the queued items unchanged. -/
theorem aliasPriority_hashCount {T : Type} (s : PQState T) (idv : Nat) (p : Priority) (h : String) :
    (aliasPriority s idv p).hashCount h = s.hashCount h := rfl

/-- `updatePriority` moves an item between sub-queues (or does nothing): the
total queue size is preserved. -/
theorem updatePriority_size {T : Type} (s : PQState T) (idv : Nat) (p : Priority) :
    ((PriorityQueue.updatePriority s idv p).2).size = s.size := by
  unfold PriorityQueue.updatePriority
  cases hh : extractById idv s.high with
  | some pr =>
    obtain ⟨it, rest⟩ := pr
    have hl := extractById_length idv s.high rest it hh
    simp only [aliasPriority_size, pushItem_size]
    simp [PQState.size] at hl ⊢
    omega
  | none =>
    cases hm : extractById idv s.medium with
    | some pr =>
      obtain ⟨it, rest⟩ := pr
      have hl := extractById_length idv s.medium rest it hm
      simp only [aliasPriority_size, pushItem_size]
      simp [PQState.size] at hl ⊢
      omega
    | none =>
      cases hw : extractById idv s.low with
      | some pr =>
        obtain ⟨it, rest⟩ := pr
        have hl := extractById_length idv s.low rest it hw
        simp only [aliasPriority_size, pushItem_size]
        simp [PQState.size] at hl ⊢
        omega
      | none => rfl

/-- `updatePriority` preserves the per-hash count of queued items (the moved
item keeps its hash). -/
theorem updatePriority_hashCount {T : Type} (s : PQState T) (idv : Nat) (p : Priority)
    (h : String) :
    ((PriorityQueue.updatePriority s idv p).2).hashCount h = s.hashCount h := by
  unfold PriorityQueue.updatePriority
  cases hh : extractById idv s.high with
  | some pr =>
    obtain ⟨it, rest⟩ := pr
    have hc := extractById_countP idv (fun q => q.hash == h) s.high rest it hh
    simp only [aliasPriority_hashCount, pushItem_hashCount]
    simp [PQState.hashCount, PQState.allItems, List.countP_append] at hc ⊢
    omega
  | none =>
    cases hm : extractById idv s.medium with
    | some pr =>
      obtain ⟨it, rest⟩ := pr
      have hc := extractById_countP idv (fun q => q.hash == h) s.medium rest it hm
      simp only [aliasPriority_hashCount, pushItem_hashCount]
      simp [PQState.hashCount, PQState.allItems, List.countP_append] at hc ⊢
      omega
    | none =>
      cases hw : extractById idv s.low with
      | some pr =>
        obtain ⟨it, rest⟩ := pr
        have hc := extractById_countP idv (fun q => q.hash == h) s.low rest it hw
        simp only [aliasPriority_hashCount, pushItem_hashCount]
        simp [PQState.hashCount, PQState.allItems, List.countP_append] at hc ⊢
        omega
      | none => rfl

/-- `updatePriority` never touches the `duplicatesPrevented` counter. -/
theorem updatePriority_dup {T : Type} (s : PQState T) (idv : Nat) (p : Priority) :
    ((PriorityQueue.updatePriority s idv p).2).duplicatesPrevented = s.duplicatesPrevented := by
  unfold PriorityQueue.updatePriority
  cases hh : extractById idv s.high with
  | some pr => cases hp : p <;> simp [aliasPriority, pushItem, hp]
  | none =>
    cases hm : extractById idv s.medium with
    | some pr => cases hp : p <;> simp [aliasPriority, pushItem, hp]
    | none =>
      cases hw : extractById idv s.low with
      | some pr => cases hp : p <;> simp [aliasPriority, pushItem, hp]
      | none => rfl

/-- Closed form of a non-duplicate `enqueue` on a queue with room. -/
theorem enqueue_fresh_eq {T : Type} (hashFn : T → String) (maxSize : Nat) (s : PQState T)
    (d : T) (p : Priority) (hfresh : s.dedup.lookup (hashFn d) = none)
    (hroom : s.size < maxSize) :
    PriorityQueue.enqueue hashFn maxSize s d p =
      (some s.nextId,
       { pushItem s ⟨s.nextId, p, d, hashFn d, 0⟩ with
          dedup := dedupSet s.dedup (hashFn d) ⟨s.nextId, p, d, hashFn d, 0⟩,
          nextId := s.nextId + 1 }) := by
  have hsz : ¬ maxSize ≤ s.size := by omega
  simp only [PriorityQueue.enqueue, hfresh, hsz, if_false]
  rw [pushItem_dedup]

/-- Pushing never touches the duplicate counter. -/
theorem pushItem_dup {T : Type} (s : PQState T) (it : QItem T) :
    (pushItem s it).duplicatesPrevented = s.duplicatesPrevented := by
  cases hp : it.priority <;> simp [pushItem, hp]

/-- C5: enqueueing the same payload twice with no timer event in between (the
"within the deduplication window" situation — the hash is only released by the
post-dequeue timer or the cleanup timer) yields exactly one queue entry: the
first call inserts the item under the fresh id, the second call returns that
same id, the total queue size does not grow, exactly one queued item carries
the payload's hash, and `duplicatesPrevented` rises by exactly one, all of it
for any pair of priorities (the second call may promote the existing item). -/
theorem priorityQueue_enqueue_dedup {T : Type} (hashFn : T → String) (maxSize : Nat)
    (s : PQState T) (d : T) (p1 p2 : Priority)
    (hfresh : s.dedup.lookup (hashFn d) = none)
    (hroom : s.size < maxSize)
    (hcount : s.hashCount (hashFn d) = 0) :
    (PriorityQueue.enqueue hashFn maxSize s d p1).1 = some s.nextId
  ∧ (PriorityQueue.enqueue hashFn maxSize
      (PriorityQueue.enqueue hashFn maxSize s d p1).2 d p2).1 = some s.nextId
  ∧ ((PriorityQueue.enqueue hashFn maxSize s d p1).2).size = s.size + 1
  ∧ ((PriorityQueue.enqueue hashFn maxSize
      (PriorityQueue.enqueue hashFn maxSize s d p1).2 d p2).2).size
      = ((PriorityQueue.enqueue hashFn maxSize s d p1).2).size
  ∧ ((PriorityQueue.enqueue hashFn maxSize s d p1).2).duplicatesPrevented
      = s.duplicatesPrevented
  ∧ ((PriorityQueue.enqueue hashFn maxSize
      (PriorityQueue.enqueue hashFn maxSize s d p1).2 d p2).2).duplicatesPrevented
      = s.duplicatesPrevented + 1
  ∧ ((PriorityQueue.enqueue hashFn maxSize
      (PriorityQueue.enqueue hashFn maxSize s d p1).2 d p2).2).hashCount (hashFn d) = 1 := by
  have e1 := enqueue_fresh_eq hashFn maxSize s d p1 hfresh hroom
  set s1 := (PriorityQueue.enqueue hashFn maxSize s d p1).2 with hs1
  have hs1X : s1 = { pushItem s ⟨s.nextId, p1, d, hashFn d, 0⟩ with
      dedup := dedupSet s.dedup (hashFn d) ⟨s.nextId, p1, d, hashFn d, 0⟩,
      nextId := s.nextId + 1 } := by
    rw [hs1, e1]
  have hlook : s1.dedup.lookup (hashFn d) = some ⟨s.nextId, p1, d, hashFn d, 0⟩ := by
    rw [hs1X]
    simp [dedupSet, List.lookup]
  have e2 : PriorityQueue.enqueue hashFn maxSize s1 d p2 =
      (some s.nextId,
       if p2.toNat < p1.toNat then
         (PriorityQueue.updatePriority
           { s1 with duplicatesPrevented := s1.duplicatesPrevented + 1 } s.nextId p2).2
       else { s1 with duplicatesPrevented := s1.duplicatesPrevented + 1 }) := by
    simp only [PriorityQueue.enqueue, hlook]
  have hsize1 : s1.size = s.size + 1 := by
    rw [hs1X]
    show (pushItem s ⟨s.nextId, p1, d, hashFn d, 0⟩).size = s.size + 1
    exact pushItem_size s _
  have hdup1 : s1.duplicatesPrevented = s.duplicatesPrevented := by
    rw [hs1X]
    show (pushItem s ⟨s.nextId, p1, d, hashFn d, 0⟩).duplicatesPrevented = s.duplicatesPrevented
    exact pushItem_dup s _
  have hhc1 : s1.hashCount (hashFn d) = 1 := by
    rw [hs1X]
    show (pushItem s ⟨s.nextId, p1, d, hashFn d, 0⟩).hashCount (hashFn d) = 1
    rw [pushItem_hashCount]
    simp [hcount]
  refine ⟨by rw [e1], by rw [e2], hsize1, ?_, hdup1, ?_, ?_⟩
  · rw [e2]
    by_cases hp : p2.toNat < p1.toNat
    · simp only [hp, if_true]
      rw [updatePriority_size]
      rfl
    · simp only [hp, if_false]
      rfl
  · rw [e2]
    by_cases hp : p2.toNat < p1.toNat
    · simp only [hp, if_true]
      rw [updatePriority_dup]
      simp [hdup1]
    · simp only [hp, if_false]
      simp [hdup1]
  · rw [e2]
    by_cases hp : p2.toNat < p1.toNat
    · simp only [hp, if_true]
      rw [updatePriority_hashCount]
      exact hhc1
    · simp only [hp, if_false]
      exact hhc1

/-- C5 witness: enqueue payload 3 twice (medium then high) into an empty
queue of capacity 10. -/
theorem priorityQueue_enqueue_dedup_witness :
    (PriorityQueue.enqueue (fun n => "h" ++ toString n) 10
        (⟨[], [], [], [], 0, 0⟩ : PQState Nat) 3 .medium).1 = some 0
  ∧ (PriorityQueue.enqueue (fun n => "h" ++ toString n) 10
      (PriorityQueue.enqueue (fun n => "h" ++ toString n) 10
        (⟨[], [], [], [], 0, 0⟩ : PQState Nat) 3 .medium).2 3 .high).1 = some 0
  ∧ ((PriorityQueue.enqueue (fun n => "h" ++ toString n) 10
      (PriorityQueue.enqueue (fun n => "h" ++ toString n) 10
        (⟨[], [], [], [], 0, 0⟩ : PQState Nat) 3 .medium).2 3 .high).2).size
      = ((PriorityQueue.enqueue (fun n => "h" ++ toString n) 10
        (⟨[], [], [], [], 0, 0⟩ : PQState Nat) 3 .medium).2).size
  ∧ ((PriorityQueue.enqueue (fun n => "h" ++ toString n) 10
      (PriorityQueue.enqueue (fun n => "h" ++ toString n) 10
        (⟨[], [], [], [], 0, 0⟩ : PQState Nat) 3 .medium).2 3 .high).2).duplicatesPrevented
      = 0 + 1
  ∧ ((PriorityQueue.enqueue (fun n => "h" ++ toString n) 10
      (PriorityQueue.enqueue (fun n => "h" ++ toString n) 10
        (⟨[], [], [], [], 0, 0⟩ : PQState Nat) 3 .medium).2 3 .high).2).hashCount "h3" = 1 := by
  have h := priorityQueue_enqueue_dedup (fun n => "h" ++ toString n) 10
    (⟨[], [], [], [], 0, 0⟩ : PQState Nat) 3 .medium .high (by decide) (by decide) (by decide)
  exact ⟨h.1, h.2.1, h.2.2.2.1, h.2.2.2.2.2.1, h.2.2.2.2.2.2⟩

/-- The retry loop performs at most `retries + 1` invocations. -/
theorem executeAux_count {α : Type} (cond : JsErrorM → Bool) (retries : Nat)
    (fn : Nat → Except JsErrorM α) :
    ∀ (d attempt : Nat), retries + 1 - attempt = d → attempt ≤ retries →
      (RetryHandler.executeAux cond retries fn attempt).2 ≤ retries + 1 := by
  intro d
  induction d with
  | zero => intro attempt hd hle; omega
  | succ n ih =>
    intro attempt hd hle
    rw [RetryHandler.executeAux]
    cases hfn : fn attempt with
    | ok v => simp; omega
    | error e =>
      dsimp only
      by_cases hbr : retries < attempt + 1
      · simp [hbr]; omega
      · rw [if_neg hbr]
        by_cases hc : cond e = false
        · simp [hc]; omega
        · rw [if_neg hc]
          exact ih (attempt + 1) (by omega) (by omega)

/-- Retryable failures advance the retry loop without changing its result. -/
theorem executeAux_skip {α : Type} (cond : JsErrorM → Bool) (retries : Nat)
    (fn : Nat → Except JsErrorM α) :
    ∀ (k a : Nat), (∀ i, a ≤ i → i < a + k → ∃ ei, fn i = .error ei ∧ cond ei = true) →
      a + k ≤ retries →
      RetryHandler.executeAux cond retries fn a = RetryHandler.executeAux cond retries fn (a + k) := by
  intro k
  induction k with
  | zero => intro a h hk; rfl
  | succ n ih =>
    intro a h hk
    obtain ⟨ea, hfa, hca⟩ := h a (le_refl a) (by omega)
    rw [RetryHandler.executeAux, hfa]
    dsimp only
    have hbr : ¬ retries < a + 1 := by omega
    rw [if_neg hbr]
    have hcf : ¬ (cond ea = false) := by simp [hca]
    rw [if_neg hcf]
    have hadd : a + 1 + n = a + (n + 1) := by omega
    have := ih (a + 1) (fun i hi1 hi2 => h i (by omega) (by omega)) (by omega)
    rw [this, hadd]

/-- C7: the retry handler configured with `retries` retries invokes the
operation at most `retries + 1` times; after a run of retryable failures, a
non-retryable failure before the last attempt is rethrown unchanged with no
further invocation; when all `retries + 1` attempts fail the last error is
rethrown with its message annotated with the attempt count; and the default
classifier marks exactly network-level failures (no response), 5xx, 429, 408
and 409 as retryable. -/
theorem retryHandler_execute_spec {α : Type} (cond : JsErrorM → Bool) (retries : Nat)
    (fn : Nat → Except JsErrorM α) :
    ((RetryHandler.execute cond retries fn).2 ≤ retries + 1)
  ∧ (∀ j e, j < retries →
      (∀ i, i < j → ∃ ei, fn i = .error ei ∧ cond ei = true) →
      fn j = .error e → cond e = false →
      RetryHandler.execute cond retries fn = (.error (.immediate e), j + 1))
  ∧ (∀ e, (∀ i, i < retries → ∃ ei, fn i = .error ei ∧ cond ei = true) →
      fn retries = .error e →
      RetryHandler.execute cond retries fn =
        (.error (.annotated (retries + 1) (RetryHandler.enhance (retries + 1) e)), retries + 1))
  ∧ (∀ e, RetryHandler.defaultRetryCondition e = true ↔
      (e.response = none ∨ ∃ r, e.response = some r ∧
        (500 ≤ r.status ∧ r.status < 600 ∨ r.status = 429 ∨ r.status = 408 ∨ r.status = 409))) := by
  refine ⟨?_, ?_, ?_, ?_⟩
  · exact executeAux_count cond retries fn (retries + 1) 0 rfl (by omega)
  · intro j e hj hall hfj hce
    have hskip := executeAux_skip cond retries fn j 0
      (fun i h0 hlt => hall i (by omega)) (by omega)
    unfold RetryHandler.execute
    rw [hskip, Nat.zero_add, RetryHandler.executeAux, hfj]
    dsimp only
    have hbr : ¬ retries < j + 1 := by omega
    rw [if_neg hbr, if_pos hce]
  · intro e hall hfe
    have hskip := executeAux_skip cond retries fn retries 0
      (fun i h0 hlt => hall i (by omega)) (by omega)
    unfold RetryHandler.execute
    rw [hskip, Nat.zero_add, RetryHandler.executeAux, hfe]
    dsimp only
    rw [if_pos (by omega : retries < retries + 1)]
  · intro e
    cases hr : e.response with
    | none => simp [RetryHandler.defaultRetryCondition, hr]
    | some r =>
      simp only [RetryHandler.defaultRetryCondition, hr, Option.some.injEq]
      split_ifs with h1 h2 h3 h4 <;> simp_all

/-- C7 witness: two configured retries; the first attempt fails with a
network-level (retryable) error, the second with a 400 (non-retryable), which
is rethrown unchanged after exactly two invocations. -/
theorem retryHandler_execute_spec_witness :
    RetryHandler.execute RetryHandler.defaultRetryCondition 2
        (fun i => if i = 0 then .error ⟨none, "socket hang up"⟩
                  else .error ⟨some ⟨400⟩, "bad request"⟩ : Nat → Except JsErrorM Nat) =
      (.error (.immediate ⟨some ⟨400⟩, "bad request"⟩), 2) :=
  (retryHandler_execute_spec RetryHandler.defaultRetryCondition 2
      (fun i => if i = 0 then .error ⟨none, "socket hang up"⟩
                else .error ⟨some ⟨400⟩, "bad request"⟩)).2.1 1
    ⟨some ⟨400⟩, "bad request"⟩ (by omega)
    (fun i hi => by
      interval_cases i
      exact ⟨⟨none, "socket hang up"⟩, rfl, rfl⟩)
    rfl (by decide)

/-- Head/tail characterization of the lexicographic comparison. -/
theorem lexLe_cons_iff (x y : Char) (xs ys : List Char) :
    lexLe (x :: xs) (y :: ys) = true ↔ (x < y ∨ (x = y ∧ lexLe xs ys = true)) := by
  rw [lexLe]
  by_cases h1 : x < y
  · simp [h1]
  · rw [if_neg h1]
    by_cases h2 : y < x
    · rw [if_pos h2]
      constructor
      · intro hf; cases hf
      · rintro (hlt | ⟨rfl, _⟩)
        · exact absurd hlt h1
        · exact absurd h2 (lt_irrefl x)
    · rw [if_neg h2]
      have heq : x = y := le_antisymm (not_lt.mp h2) (not_lt.mp h1)
      subst heq
      simp [h1]

/-- The lexicographic comparison is total. -/
theorem lexLe_total : ∀ a b : List Char, lexLe a b = true ∨ lexLe b a = true := by
  intro a
  induction a with
  | nil => intro b; exact Or.inl rfl
  | cons x xs ih =>
    intro b
    cases b with
    | nil => exact Or.inr rfl
    | cons y ys =>
      rcases lt_trichotomy x y with h | h | h
      · exact Or.inl ((lexLe_cons_iff x y xs ys).mpr (Or.inl h))
      · subst h
        rcases ih ys with h' | h'
        · exact Or.inl ((lexLe_cons_iff x x xs ys).mpr (Or.inr ⟨rfl, h'⟩))
        · exact Or.inr ((lexLe_cons_iff x x ys xs).mpr (Or.inr ⟨rfl, h'⟩))
      · exact Or.inr ((lexLe_cons_iff y x ys xs).mpr (Or.inl h))

/-- The lexicographic comparison is antisymmetric. -/
theorem lexLe_antisymm : ∀ a b : List Char, lexLe a b = true → lexLe b a = true → a = b := by
  intro a
  induction a with
  | nil =>
    intro b h1 h2
    cases b with
    | nil => rfl
    | cons y ys => simp [lexLe] at h2
  | cons x xs ih =>
    intro b h1 h2
    cases b with
    | nil => simp [lexLe] at h1
    | cons y ys =>
      rcases (lexLe_cons_iff x y xs ys).mp h1 with hlt | ⟨heq, ht1⟩
      · rcases (lexLe_cons_iff y x ys xs).mp h2 with hlt2 | ⟨heq2, _⟩
        · exact absurd hlt2 (lt_asymm hlt)
        · subst heq2; exact absurd hlt (lt_irrefl y)
      · subst heq
        rcases (lexLe_cons_iff x x ys xs).mp h2 with hlt2 | ⟨_, ht2⟩
        · exact absurd hlt2 (lt_irrefl x)
        · rw [ih ys ht1 ht2]

/-- The lexicographic comparison is transitive. -/
theorem lexLe_trans : ∀ a b c : List Char,
    lexLe a b = true → lexLe b c = true → lexLe a c = true := by
  intro a
  induction a with
  | nil => intro b c h1 h2; rfl
  | cons x xs ih =>
    intro b c h1 h2
    cases b with
    | nil => simp [lexLe] at h1
    | cons y ys =>
      cases c with
      | nil => simp [lexLe] at h2
      | cons z zs =>
        rcases (lexLe_cons_iff x y xs ys).mp h1 with hxy | ⟨rfl, ht1⟩
        · rcases (lexLe_cons_iff y z ys zs).mp h2 with hyz | ⟨rfl, ht2⟩
          · exact (lexLe_cons_iff x z xs zs).mpr (Or.inl (lt_trans hxy hyz))
          · exact (lexLe_cons_iff x y xs zs).mpr (Or.inl hxy)
        · rcases (lexLe_cons_iff x z ys zs).mp h2 with hyz | ⟨rfl, ht2⟩
          · exact (lexLe_cons_iff x z xs zs).mpr (Or.inl hyz)
          · exact (lexLe_cons_iff x x xs zs).mpr (Or.inr ⟨rfl, ih ys zs ht1 ht2⟩)

/-- Key-order totality on strings. -/
theorem strLe_total (a b : String) : strLe a b = true ∨ strLe b a = true :=
  lexLe_total a.toList b.toList

/-- Key-order antisymmetry on strings. -/
theorem strLe_antisymm (a b : String) (h1 : strLe a b = true) (h2 : strLe b a = true) :
    a = b :=
  String.ext (lexLe_antisymm a.toList b.toList h1 h2)

/-- Key-order transitivity on strings. -/
theorem strLe_trans (a b c : String) (h1 : strLe a b = true) (h2 : strLe b c = true) :
    strLe a c = true :=
  lexLe_trans a.toList b.toList c.toList h1 h2

/-- Sorting relation on normalized entries: ordered keys. -/
def keyLe (u v : String × String) : Prop := strLe u.1 v.1 = true

/-- Inserting is a permutation of consing. -/
theorem insertSorted_perm (kv : String × String) :
    ∀ l : List (String × String), (insertSorted kv l).Perm (kv :: l) := by
  intro l
  induction l with
  | nil => exact List.Perm.refl _
  | cons b t ih =>
    rw [insertSorted]
    by_cases h : strLe kv.1 b.1
    · rw [if_pos h]
    · rw [if_neg h]
      exact (ih.cons b).trans (List.Perm.swap kv b t)

/-- Inserting preserves sortedness. -/
theorem insertSorted_sorted (kv : String × String) :
    ∀ l : List (String × String), l.Pairwise keyLe → (insertSorted kv l).Pairwise keyLe := by
  intro l
  induction l with
  | nil => intro _; exact List.pairwise_singleton keyLe kv
  | cons b t ih =>
    intro hs
    rcases List.pairwise_cons.mp hs with ⟨hb, ht⟩
    rw [insertSorted]
    by_cases h : strLe kv.1 b.1
    · rw [if_pos h]
      refine List.pairwise_cons.mpr ⟨?_, hs⟩
      intro x hx
      rcases List.mem_cons.mp hx with rfl | hx
      · exact h
      · exact strLe_trans kv.1 b.1 x.1 h (hb x hx)
    · rw [if_neg h]
      refine List.pairwise_cons.mpr ⟨?_, ih ht⟩
      intro x hx
      rcases List.mem_cons.mp ((insertSorted_perm kv t).mem_iff.mp hx) with rfl | hx
      · rcases strLe_total x.1 b.1 with h' | h'
        · exact absurd h' h
        · exact h'
      · exact hb x hx

/-- The modelled key sort is a permutation of its input. -/
theorem sortByKey_perm : ∀ l : List (String × String), (sortByKey l).Perm l := by
  intro l
  induction l with
  | nil => exact List.Perm.refl _
  | cons a t ih =>
    rw [sortByKey]
    exact (insertSorted_perm a (sortByKey t)).trans (ih.cons a)

/-- The modelled key sort sorts. -/
theorem sortByKey_sorted : ∀ l : List (String × String), (sortByKey l).Pairwise keyLe := by
  intro l
  induction l with
  | nil => exact List.Pairwise.nil
  | cons a t ih => exact insertSorted_sorted a (sortByKey t) ih

/-- Two sorted permutations of the same entries with pairwise-distinct keys are
equal. -/
theorem sorted_perm_nodupKeys_eq (l1 l2 : List (String × String))
    (hp : l1.Perm l2) (hnd : (l1.map Prod.fst).Nodup)
    (hs1 : l1.Pairwise keyLe) (hs2 : l2.Pairwise keyLe) : l1 = l2 := by
  have hnd2 : (l2.map Prod.fst).Nodup := (hp.map Prod.fst).nodup hnd
  have hne1 : l1.Pairwise (fun u v => u.1 ≠ v.1) := List.pairwise_map.mp hnd
  have hne2 : l2.Pairwise (fun u v => u.1 ≠ v.1) := List.pairwise_map.mp hnd2
  haveI : IsAntisymm (String × String) (fun u v => keyLe u v ∧ u.1 ≠ v.1) :=
    ⟨fun u v h1 h2 => absurd (strLe_antisymm u.1 v.1 h1.1 h2.1) h1.2⟩
  exact List.eq_of_perm_of_sorted hp (hs1.and hne1) (hs2.and hne2)

/-- C9: `generateKey` is insensitive to the insertion order of the parameter
keys (a JS object has pairwise-distinct keys), and identical inputs always
yield the same key. -/
theorem generateKey_order_independent (hashFn : String → String) (dataType : String)
    (P1 P2 : List (String × PValue)) (hperm : P1.Perm P2)
    (hnodup : (P1.map Prod.fst).Nodup) :
    KeyGenerator.generateKey hashFn dataType P1 = KeyGenerator.generateKey hashFn dataType P2
  ∧ (∀ Q1 Q2 : List (String × PValue), Q1 = Q2 →
      KeyGenerator.generateKey hashFn dataType Q1 = KeyGenerator.generateKey hashFn dataType Q2) := by
  refine ⟨?_, fun Q1 Q2 h => by rw [h]⟩
  have hkeys : ((P1.map (fun kv => (kv.1, KeyGenerator.normalizeValue kv.2))).map Prod.fst).Nodup := by
    simpa [List.map_map, Function.comp] using hnodup
  have hsorteq : KeyGenerator.sortAndNormalizeParams P1 = KeyGenerator.sortAndNormalizeParams P2 := by
    apply sorted_perm_nodupKeys_eq
    · exact (sortByKey_perm _).trans
        ((hperm.map (fun kv => (kv.1, KeyGenerator.normalizeValue kv.2))).trans
          (sortByKey_perm _).symm)
    · exact ((sortByKey_perm _).map Prod.fst).symm.nodup hkeys
    · exact sortByKey_sorted _
    · exact sortByKey_sorted _
  simp only [KeyGenerator.generateKey, hsorteq]

/-- C9 witness: the same two entries in both insertion orders produce the same
key. -/
theorem generateKey_order_independent_witness :
    KeyGenerator.generateKey (fun _ => "") "unique_items"
        [("b", PValue.vNum 1), ("a", PValue.vNull)] =
      KeyGenerator.generateKey (fun _ => "") "unique_items"
        [("a", PValue.vNull), ("b", PValue.vNum 1)] :=
  (generateKey_order_independent (fun _ => "") "unique_items"
      [("b", PValue.vNum 1), ("a", PValue.vNull)]
      [("a", PValue.vNull), ("b", PValue.vNum 1)]
      (by decide) (by decide)).1

/-- With the monitoring decay disabled, a call while the breaker is open and
the reset timeout has not elapsed is rejected immediately: only the request
counter changes, and neither the new state nor the outcome depends on the
wrapped operation (it is not invoked). -/
theorem execute_mp0_opened_blocked {α : Type} (cfg : CircuitBreakerConfig)
    (hmp : cfg.monitoringPeriod = 0) (fc sc tr : Nat) (lft lst : Option Nat)
    (t now : Nat) (hlt : now < t) (r : Option α) :
    CircuitBreaker.execute cfg ⟨.opened, fc, sc, tr, lft, lst, some t⟩ now r =
      (⟨.opened, fc, sc, tr + 1, lft, lst, some t⟩, .circuitOpenError) := by
  unfold CircuitBreaker.execute CircuitBreaker.checkStateTransition
  have hc : ¬ (t ≠ 0 ∧ t ≤ now) := by omega
  cases lft <;> simp [hmp, hc]

/-- With the monitoring decay disabled, the first call after the reset timeout
is let through (half-open); on success the breaker closes with the failure
counter zeroed and the next-attempt timer cleared. -/
theorem execute_mp0_halfOpen_success {α : Type} (cfg : CircuitBreakerConfig)
    (hmp : cfg.monitoringPeriod = 0) (fc sc tr : Nat) (lft lst : Option Nat)
    (t now : Nat) (ht0 : t ≠ 0) (hle : t ≤ now) (v : α) :
    CircuitBreaker.execute cfg ⟨.opened, fc, sc, tr, lft, lst, some t⟩ now (some v) =
      (⟨.closed, 0, sc + 1, tr + 1, lft, some now, none⟩, .result v) := by
  unfold CircuitBreaker.execute CircuitBreaker.checkStateTransition CircuitBreaker.onSuccess
  have hc : t ≠ 0 ∧ t ≤ now := ⟨ht0, hle⟩
  cases lft <;> simp [hmp, hc]

/-- With the monitoring decay disabled, a failed half-open call reopens the
breaker and restarts the reset timer, provided the incremented failure count
reaches the threshold (always true along reachable states, see the invariant
below). -/
theorem execute_mp0_halfOpen_failure {α : Type} (cfg : CircuitBreakerConfig)
    (hmp : cfg.monitoringPeriod = 0) (fc sc tr : Nat) (lft lst : Option Nat)
    (t now : Nat) (ht0 : t ≠ 0) (hle : t ≤ now)
    (hfc : cfg.failureThreshold ≤ fc + 1) :
    CircuitBreaker.execute cfg ⟨.opened, fc, sc, tr, lft, lst, some t⟩ now (none : Option α) =
      (⟨.opened, fc + 1, sc, tr + 1, some now, lst, some (now + cfg.resetTimeout)⟩, .opError) := by
  unfold CircuitBreaker.execute CircuitBreaker.checkStateTransition CircuitBreaker.onFailure
    CircuitBreaker.openCircuit
  have hc : t ≠ 0 ∧ t ≤ now := ⟨ht0, hle⟩
  cases lft <;> simp [hmp, hc, hfc]

/-- With the monitoring decay disabled, a failure in the closed state just
increments the counter, opening the circuit exactly when the threshold is
reached. -/
theorem execute_mp0_closed_failure {α : Type} (cfg : CircuitBreakerConfig)
    (hmp : cfg.monitoringPeriod = 0) (fc sc tr : Nat) (lft lst nat : Option Nat) (now : Nat) :
    CircuitBreaker.execute cfg ⟨.closed, fc, sc, tr, lft, lst, nat⟩ now (none : Option α) =
      (if cfg.failureThreshold ≤ fc + 1 then
         ⟨.opened, fc + 1, sc, tr + 1, some now, lst, some (now + cfg.resetTimeout)⟩
       else ⟨.closed, fc + 1, sc, tr + 1, some now, lst, nat⟩, .opError) := by
  unfold CircuitBreaker.execute CircuitBreaker.checkStateTransition CircuitBreaker.onFailure
    CircuitBreaker.openCircuit
  by_cases hth : cfg.failureThreshold ≤ fc + 1 <;>
    cases lft <;> cases nat <;> simp [hmp, hth]

/-- C2 counterexample.  The concrete trace of `cbDecayTrace` (threshold 2,
monitoringPeriod 10, resetTimeout 1000000; failures at t=1,2, rejected calls at
t=50,60 which decay the failure count, then a failing half-open call at
t=1000002) ends with the breaker half-open, not open: the claim's "if that call
fails the state returns to open" is violated, and the following call would be
let through as well. -/
theorem circuitBreaker_halfOpen_failure_counterexample :
    cbDecayTrace.state = CircuitState.halfOpen ∧
    cbDecayTrace.state ≠ CircuitState.opened ∧
    cbDecayTrace.failureCount = 1 := by
  refine ⟨rfl, ?_, rfl⟩
  intro h
  cases h

/-- C2 (amended): with the monitoring-period failure decay disabled
(`monitoringPeriod = 0`; a nonzero period lets calls made while open decay the
failure count, see the counterexample): starting from a fresh breaker, after
exactly `failureThreshold` (≥ 1) consecutive failures the state is open and
before that it is closed; every call while open (reset timeout not yet
elapsed) fails immediately with the breaker error, without invoking the
wrapped operation and leaving everything but the request counter unchanged;
once the reset timeout has elapsed the next call is let through, and the state
it leaves is never half-open (exactly one call passes): on success the breaker
is closed with the failure counter zeroed and the timer cleared (the
success/total counters are cumulative metrics and are not reset), on failure
the breaker is open again with the reset timer restarted; the stated invariant
(threshold reached whenever the breaker is away from closed) is preserved by
every call. -/
theorem circuitBreaker_transitions {α : Type} (cfg : CircuitBreakerConfig)
    (hmp : cfg.monitoringPeriod = 0) (hth : 1 ≤ cfg.failureThreshold) :
    (∀ (times : Nat → Nat) (n : Nat), n ≤ cfg.failureThreshold →
      (CircuitBreaker.iterExecute (α := α) cfg times (fun _ => none) n).failureCount = n ∧
      (CircuitBreaker.iterExecute (α := α) cfg times (fun _ => none) n).state =
        (if n < cfg.failureThreshold then CircuitState.closed else CircuitState.opened))
  ∧ (∀ (s : CBState) (now t : Nat) (r r' : Option α),
      s.state = .opened → s.nextAttemptTime = some t → t ≠ 0 → now < t →
      CircuitBreaker.execute cfg s now r = CircuitBreaker.execute cfg s now r' ∧
      (CircuitBreaker.execute cfg s now r).2 = .circuitOpenError ∧
      (CircuitBreaker.execute cfg s now r).1 = { s with totalRequests := s.totalRequests + 1 })
  ∧ (∀ (s : CBState) (now t : Nat) (v : α),
      s.state = .opened → s.nextAttemptTime = some t → t ≠ 0 → t ≤ now →
      (CircuitBreaker.execute cfg s now (some v)).2 = .result v ∧
      (CircuitBreaker.execute cfg s now (some v)).1.state = .closed ∧
      (CircuitBreaker.execute cfg s now (some v)).1.failureCount = 0 ∧
      (CircuitBreaker.execute cfg s now (some v)).1.nextAttemptTime = none)
  ∧ (∀ (s : CBState) (now t : Nat),
      s.state = .opened → s.nextAttemptTime = some t → t ≠ 0 → t ≤ now → CBInv cfg s →
      (CircuitBreaker.execute cfg s now (none : Option α)).2 = .opError ∧
      (CircuitBreaker.execute cfg s now (none : Option α)).1.state = .opened ∧
      (CircuitBreaker.execute cfg s now (none : Option α)).1.nextAttemptTime =
        some (now + cfg.resetTimeout))
  ∧ (∀ (s : CBState) (now t : Nat) (r : Option α),
      s.state = .opened → s.nextAttemptTime = some t → t ≠ 0 → t ≤ now → CBInv cfg s →
      (CircuitBreaker.execute cfg s now r).1.state ≠ CircuitState.halfOpen)
  ∧ (∀ (s : CBState) (now : Nat) (r : Option α),
      CBInv cfg s → CBInv cfg (CircuitBreaker.execute cfg s now r).1) := by
  refine ⟨?_, ?_, ?_, ?_, ?_, ?_⟩
  · intro times n
    induction n with
    | zero =>
      intro _
      refine ⟨rfl, ?_⟩
      rw [if_pos (by omega)]
      rfl
    | succ n ih =>
      intro hn1
      obtain ⟨hfc, hst⟩ := ih (by omega)
      rw [if_pos (by omega)] at hst
      rcases hiter : CircuitBreaker.iterExecute (α := α) cfg times (fun _ => none) n with
        ⟨st, fc, sc, tr, lft, lst, nat⟩
      rw [hiter] at hfc hst
      simp only at hfc hst
      rw [hfc, hst] at hiter
      have hstep : CircuitBreaker.iterExecute (α := α) cfg times (fun _ => none) (n + 1) =
          (CircuitBreaker.execute cfg
            (CircuitBreaker.iterExecute (α := α) cfg times (fun _ => none) n)
            (times n) none).1 := rfl
      rw [hstep, hiter, execute_mp0_closed_failure cfg hmp]
      by_cases hfin : cfg.failureThreshold ≤ n + 1
      · rw [if_pos hfin, if_neg (by omega)]
        exact ⟨rfl, rfl⟩
      · rw [if_neg hfin, if_pos (by omega)]
        exact ⟨rfl, rfl⟩
  · intro s now t r r' hst hnat _ht0 hlt
    rcases s with ⟨st, fc, sc, tr, lft, lst, nat⟩
    simp only at hst hnat
    subst hst
    subst hnat
    rw [execute_mp0_opened_blocked cfg hmp fc sc tr lft lst t now hlt r,
      execute_mp0_opened_blocked cfg hmp fc sc tr lft lst t now hlt r']
    exact ⟨rfl, rfl, rfl⟩
  · intro s now t v hst hnat ht0 hle
    rcases s with ⟨st, fc, sc, tr, lft, lst, nat⟩
    simp only at hst hnat
    subst hst
    subst hnat
    rw [execute_mp0_halfOpen_success cfg hmp fc sc tr lft lst t now ht0 hle v]
    exact ⟨rfl, rfl, rfl, rfl⟩
  · intro s now t hst hnat ht0 hle hinv
    rcases s with ⟨st, fc, sc, tr, lft, lst, nat⟩
    simp only at hst hnat
    subst hst
    subst hnat
    have hfc : cfg.failureThreshold ≤ fc + 1 := by
      have := hinv (by simp)
      simp only at this
      omega
    rw [execute_mp0_halfOpen_failure cfg hmp fc sc tr lft lst t now ht0 hle hfc]
    exact ⟨rfl, rfl, rfl⟩
  · intro s now t r hst hnat ht0 hle hinv
    rcases s with ⟨st, fc, sc, tr, lft, lst, nat⟩
    simp only at hst hnat
    subst hst
    subst hnat
    have hfc : cfg.failureThreshold ≤ fc + 1 := by
      have := hinv (by simp)
      simp only at this
      omega
    cases r with
    | some v =>
      rw [execute_mp0_halfOpen_success cfg hmp fc sc tr lft lst t now ht0 hle v]
      intro h
      cases h
    | none =>
      rw [execute_mp0_halfOpen_failure cfg hmp fc sc tr lft lst t now ht0 hle hfc]
      intro h
      cases h
  · intro s now r hinv
    rcases s with ⟨st, fc, sc, tr, lft, lst, nat⟩
    cases st with
    | closed =>
      cases r with
      | some v =>
        unfold CircuitBreaker.execute CircuitBreaker.checkStateTransition CircuitBreaker.onSuccess
        cases lft <;> cases nat <;> simp [hmp, CBInv]
      | none =>
        rw [execute_mp0_closed_failure cfg hmp]
        by_cases hfin : cfg.failureThreshold ≤ fc + 1
        · rw [if_pos hfin]
          intro _
          simpa using hfin
        · rw [if_neg hfin]
          intro h
          simp at h
    | opened =>
      have hfcinv : cfg.failureThreshold ≤ fc := by
        have := hinv (by simp)
        simpa using this
      cases nat with
      | none =>
        unfold CircuitBreaker.execute CircuitBreaker.checkStateTransition
        cases lft <;> simp [hmp, CBInv] <;> omega
      | some t =>
        by_cases helap : t ≠ 0 ∧ t ≤ now
        · cases r with
          | some v =>
            rw [execute_mp0_halfOpen_success cfg hmp fc sc tr lft lst t now helap.1 helap.2 v]
            intro h
            simp at h
          | none =>
            rw [execute_mp0_halfOpen_failure cfg hmp fc sc tr lft lst t now helap.1 helap.2
              (by omega)]
            intro _
            simpa using Nat.le_succ_of_le hfcinv
        · unfold CircuitBreaker.execute CircuitBreaker.checkStateTransition
          cases lft <;> simp [hmp, helap, CBInv] <;> omega
    | halfOpen =>
      have hfcinv : cfg.failureThreshold ≤ fc := by
        have := hinv (by simp)
        simpa using this
      have hfin : cfg.failureThreshold ≤ fc + 1 := by omega
      unfold CircuitBreaker.execute CircuitBreaker.checkStateTransition
        CircuitBreaker.onSuccess CircuitBreaker.onFailure CircuitBreaker.openCircuit
      cases r <;> cases lft <;> cases nat <;>
        simp [hmp, CBInv, hfin]

/-- C2 witness: threshold 2 with decay disabled.  Two consecutive failures
open the breaker, and a successful call after the reset timeout closes it with
the failure counter zeroed. -/
theorem circuitBreaker_transitions_witness :
    (CircuitBreaker.iterExecute (α := Unit) ⟨2, 10000, 60000, 0⟩ (fun _ => 5)
        (fun _ => none) 2).failureCount = 2
  ∧ (CircuitBreaker.iterExecute (α := Unit) ⟨2, 10000, 60000, 0⟩ (fun _ => 5)
        (fun _ => none) 2).state = CircuitState.opened
  ∧ (CircuitBreaker.execute (⟨2, 10000, 60000, 0⟩ : CircuitBreakerConfig)
        ⟨.opened, 2, 0, 2, some 5, none, some 60005⟩ 70000 (some ())).1.state =
      CircuitState.closed
  ∧ (CircuitBreaker.execute (⟨2, 10000, 60000, 0⟩ : CircuitBreakerConfig)
        ⟨.opened, 2, 0, 2, some 5, none, some 60005⟩ 70000 (some ())).1.failureCount = 0 := by
  have h1 := (circuitBreaker_transitions (α := Unit) ⟨2, 10000, 60000, 0⟩ rfl
    (by decide)).1 (fun _ => 5) 2 (by decide)
  have h3 := (circuitBreaker_transitions (α := Unit) ⟨2, 10000, 60000, 0⟩ rfl
    (by decide)).2.2.1 ⟨.opened, 2, 0, 2, some 5, none, some 60005⟩ 70000 60005 ()
    rfl rfl (by decide) (by decide)
  exact ⟨h1.1, h1.2, h3.2.1, h3.2.2.1⟩

/-- One `processQueue` run with a positive refill. -/
theorem processStep_pos (rate burst tok lr u n : Nat) (ha : 0 < (u - lr) * rate / 1000) :
    RateLimiter.processStep rate burst ⟨tok, lr⟩ u n =
      (⟨min burst (tok + (u - lr) * rate / 1000) -
          min (min burst (tok + (u - lr) * rate / 1000)) n, u⟩,
       min (min burst (tok + (u - lr) * rate / 1000)) n) := by
  simp [RateLimiter.processStep, RateLimiter.refillTokens, ha]

/-- One `processQueue` run with no refill (less than one token accrued). -/
theorem processStep_zero (rate burst tok lr u n : Nat) (ha : ¬ 0 < (u - lr) * rate / 1000) :
    RateLimiter.processStep rate burst ⟨tok, lr⟩ u n = (⟨tok - min tok n, lr⟩, min tok n) := by
  simp [RateLimiter.processStep, RateLimiter.refillTokens, ha]

/-- Extracting the window bound from a scaled inequality. -/
theorem rl_div_bound (G burst R : Nat) (h : 1000 * G ≤ 1000 * burst + R) :
    G ≤ burst + R / 1000 := by
  by_cases hbG : G ≤ burst
  · omega
  · have h2 : (G - burst) * 1000 ≤ R := by omega
    have h3 : G - burst ≤ R / 1000 := (Nat.le_div_iff_mul_le (by omega)).mpr h2
    omega

/-- The invariant yields the window bound. -/
theorem RLInv_final (rate burst ws we tok lr G tprev : Nat)
    (hInv : RLInv rate burst ws we tok lr G tprev) :
    G ≤ burst + ((we - ws) * rate + 999) / 1000 := by
  obtain ⟨htok, hlrp, hbr⟩ := hInv
  rcases hbr with ⟨hpe, hlrws, hGtok, hGz⟩ | ⟨hpe, hwslr, hB⟩ | ⟨hwe, hG⟩
  · omega
  · have hlrwe : lr ≤ we := le_trans hlrp hpe
    have hmul : (lr - ws) * rate ≤ (we - ws) * rate :=
      Nat.mul_le_mul_right rate (Nat.sub_le_sub_right hlrwe ws)
    exact rl_div_bound G burst ((we - ws) * rate + 999) (by omega)
  · exact hG

/-- The invariant is preserved by one `processQueue` run at a later time. -/
theorem RLInv_step (rate burst ws we tok lr G tprev u n : Nat) (hwswe : ws ≤ we)
    (hInv : RLInv rate burst ws we tok lr G tprev) (hle : tprev ≤ u) :
    RLInv rate burst ws we
      ((RateLimiter.processStep rate burst ⟨tok, lr⟩ u n).1.tokens)
      ((RateLimiter.processStep rate burst ⟨tok, lr⟩ u n).1.lastRefill)
      (G + (if ws < u ∧ u ≤ we then (RateLimiter.processStep rate burst ⟨tok, lr⟩ u n).2 else 0))
      u := by
  obtain ⟨htok, hlrp, hbr⟩ := hInv
  have hlru : lr ≤ u := le_trans hlrp hle
  by_cases ha : 0 < (u - lr) * rate / 1000
  · rw [processStep_pos rate burst tok lr u n ha]
    dsimp only
    have hA : 1000 * ((u - lr) * rate / 1000) ≤ (u - lr) * rate :=
      Nat.mul_div_le ((u - lr) * rate) 1000
    have hminb : min burst (tok + (u - lr) * rate / 1000) ≤ burst := Nat.min_le_left _ _
    have hmint : min burst (tok + (u - lr) * rate / 1000) ≤ tok + (u - lr) * rate / 1000 :=
      Nat.min_le_right _ _
    have hming : min (min burst (tok + (u - lr) * rate / 1000)) n ≤
        min burst (tok + (u - lr) * rate / 1000) := Nat.min_le_left _ _
    refine ⟨by omega, le_refl u, ?_⟩
    rcases Nat.lt_or_ge ws u with hwsu | hwsu
    · by_cases huwe : u ≤ we
      · rw [if_pos ⟨hwsu, huwe⟩]
        right; left
        refine ⟨huwe, hwsu, ?_⟩
        rcases hbr with ⟨hpe, hlrws, hGtok, hGz⟩ | ⟨hpe, hwslr, hB⟩ | ⟨hwe2, hG⟩
        · have hsum : (u - ws) + (ws - lr) = u - lr :=
            Nat.sub_add_sub_cancel (le_of_lt hwsu) hlrws
          have hsplit : (u - lr) * rate = (u - ws) * rate + (ws - lr) * rate := by
            rw [← Nat.add_mul, hsum]
          rcases hGz with hG0 | ⟨hZ, _⟩
          · omega
          · omega
        · have hsum : (u - lr) + (lr - ws) = u - ws :=
            Nat.sub_add_sub_cancel hlru (le_of_lt hwslr)
          have hsplit : (u - ws) * rate = (u - lr) * rate + (lr - ws) * rate := by
            rw [← Nat.add_mul, hsum]
          omega
        · omega
      · rw [if_neg (by tauto)]
        right; right
        refine ⟨by omega, ?_⟩
        rcases hbr with ⟨hpe, hlrws, hGtok, hGz⟩ | ⟨hpe, hwslr, hB⟩ | ⟨hwe2, hG⟩
        · omega
        · have hlrwe : lr ≤ we := le_trans hlrp hpe
          have hmul : (lr - ws) * rate ≤ (we - ws) * rate :=
            Nat.mul_le_mul_right rate (Nat.sub_le_sub_right hlrwe ws)
          exact rl_div_bound G burst ((we - ws) * rate + 999) (by omega)
        · exact hG
    · rw [if_neg (by omega)]
      rcases hbr with ⟨hpe, hlrws, hGtok, hGz⟩ | ⟨hpe, hwslr, hB⟩ | ⟨hwe2, hG⟩
      · left
        have hG0 : G = 0 := by
          rcases hGz with hG0 | ⟨_, hws2⟩
          · exact hG0
          · omega
        exact ⟨by omega, hwsu, by omega, Or.inl hG0⟩
      · omega
      · omega
  · rw [processStep_zero rate burst tok lr u n ha]
    dsimp only
    have hfa : (u - lr) * rate < 1000 := by
      have ha0 : (u - lr) * rate / 1000 = 0 := by omega
      exact (Nat.div_eq_zero_iff (by omega)).mp ha0
    have hming : min tok n ≤ tok := Nat.min_le_left _ _
    refine ⟨by omega, le_trans hlrp hle, ?_⟩
    rcases Nat.lt_or_ge ws u with hwsu | hwsu
    · by_cases huwe : u ≤ we
      · rw [if_pos ⟨hwsu, huwe⟩]
        rcases hbr with ⟨hpe, hlrws, hGtok, hGz⟩ | ⟨hpe, hwslr, hB⟩ | ⟨hwe2, hG⟩
        · left
          refine ⟨huwe, hlrws, by omega, ?_⟩
          by_cases hG0 : G + min tok n = 0
          · exact Or.inl hG0
          · right
            refine ⟨?_, hwsu⟩
            rcases hGz with hGz0 | ⟨hZ, _⟩
            · have hmul : (ws - lr) * rate ≤ (u - lr) * rate :=
                Nat.mul_le_mul_right rate (by omega)
              omega
            · exact hZ
        · right; left
          exact ⟨huwe, hwslr, by omega⟩
        · omega
      · rw [if_neg (by tauto)]
        right; right
        refine ⟨by omega, ?_⟩
        rcases hbr with ⟨hpe, hlrws, hGtok, hGz⟩ | ⟨hpe, hwslr, hB⟩ | ⟨hwe2, hG⟩
        · omega
        · have hlrwe : lr ≤ we := le_trans hlrp hpe
          have hmul : (lr - ws) * rate ≤ (we - ws) * rate :=
            Nat.mul_le_mul_right rate (Nat.sub_le_sub_right hlrwe ws)
          exact rl_div_bound G burst ((we - ws) * rate + 999) (by omega)
        · exact hG
    · rw [if_neg (by omega)]
      rcases hbr with ⟨hpe, hlrws, hGtok, hGz⟩ | ⟨hpe, hwslr, hB⟩ | ⟨hwe2, hG⟩
      · left
        have hG0 : G = 0 := by
          rcases hGz with hG0 | ⟨_, hws2⟩
          · exact hG0
          · omega
        exact ⟨by omega, hlrws, by omega, Or.inl hG0⟩
      · omega
      · omega

/-- Folding the invariant over a monotone event trace. -/
theorem RLInv_windowGrants (rate burst ws we : Nat) (hwswe : ws ≤ we) :
    ∀ (events : List (Nat × Nat)) (tok lr G tprev : Nat),
      monotoneFrom tprev (events.map Prod.fst) = true →
      RLInv rate burst ws we tok lr G tprev →
      G + RateLimiter.windowGrants rate burst ws we ⟨tok, lr⟩ events ≤
        burst + ((we - ws) * rate + 999) / 1000 := by
  intro events
  induction events with
  | nil =>
    intro tok lr G tprev hmono hInv
    simpa [RateLimiter.windowGrants] using RLInv_final rate burst ws we tok lr G tprev hInv
  | cons ev rest ih =>
    obtain ⟨u, n⟩ := ev
    intro tok lr G tprev hmono hInv
    rw [List.map_cons, monotoneFrom] at hmono
    by_cases hup : tprev ≤ u
    · rw [if_pos hup] at hmono
      have hstep := RLInv_step rate burst ws we tok lr G tprev u n hwswe hInv hup
      have hrec := ih ((RateLimiter.processStep rate burst ⟨tok, lr⟩ u n).1.tokens)
        ((RateLimiter.processStep rate burst ⟨tok, lr⟩ u n).1.lastRefill)
        (G + (if ws < u ∧ u ≤ we then (RateLimiter.processStep rate burst ⟨tok, lr⟩ u n).2 else 0))
        u hmono hstep
      have hstate : (⟨(RateLimiter.processStep rate burst ⟨tok, lr⟩ u n).1.tokens,
          (RateLimiter.processStep rate burst ⟨tok, lr⟩ u n).1.lastRefill⟩ : RLState) =
          (RateLimiter.processStep rate burst ⟨tok, lr⟩ u n).1 := rfl
      rw [hstate] at hrec
      rw [RateLimiter.windowGrants]
      omega
    · rw [if_neg hup] at hmono
      cases hmono

/-- C4: over any window `(wstart, wstart+W]` (times in ms, rate in
requests/second), the number of `acquire()` grants the token-bucket limiter
hands out never exceeds `ceil(rate·W) + burst = (rate·W + 999)/1000 + burst`.
The event list (time, pending acquirers) over-approximates every schedule of
`processQueue` runs the JS event loop can produce; the limiter starts full
(`tokens = burstSize`) with `lastRefill` at creation time `t0` and events are
processed in time order. -/
theorem rateLimiter_sliding_window_bound (rate burst t0 wstart W : Nat)
    (events : List (Nat × Nat))
    (hmono : monotoneFrom t0 (events.map Prod.fst) = true) :
    RateLimiter.windowGrants rate burst wstart (wstart + W) ⟨burst, t0⟩ events ≤
      (rate * W + 999) / 1000 + burst := by
  have hInit : RLInv rate burst wstart (wstart + W) burst t0 0 t0 := by
    refine ⟨le_refl burst, le_refl t0, ?_⟩
    rcases Nat.lt_or_ge wstart t0 with hws | hws
    · by_cases hwe : t0 ≤ wstart + W
      · right; left
        exact ⟨hwe, hws, by omega⟩
      · right; right
        exact ⟨by omega, by omega⟩
    · left
      exact ⟨by omega, hws, by omega, Or.inl rfl⟩
  have := RLInv_windowGrants rate burst wstart (wstart + W) (by omega) events burst t0 0 t0
    hmono hInit
  have hW : (wstart + W - wstart) * rate = rate * W := by
    rw [Nat.add_sub_cancel_left, Nat.mul_comm]
  omega

/-- C4 witness: rate 2/s, burst 5, limiter created at t=0; a burst of 9
acquirers at t=1000 and more at t=1400 and t=2000, window (900, 2900] of
length W=2000 ms: the bound is ceil(2·2) + 5 = 9 grants. -/
theorem rateLimiter_sliding_window_bound_witness :
    RateLimiter.windowGrants 2 5 900 (900 + 2000) ⟨5, 0⟩ [(1000, 9), (1400, 3), (2000, 3)] ≤
      (2 * 2000 + 999) / 1000 + 5 :=
  rateLimiter_sliding_window_bound 2 5 0 900 2000 [(1000, 9), (1400, 3), (2000, 3)] (by decide)
